import Mathlib

/-!
Verification of the WAZN checkpoint registry (src/checkpoints/checkpoints.cpp)
against its natural-language specification. The registry state (two ordered
maps of the C++ class) is embedded as association lists with order-independent
observations (lookup, maximum key, floor key), which coincide with the
std::map operations used by the source (find, rbegin, upper_bound).
-/

namespace Wazn

/-- A block hash (crypto::hash): 32 bytes, modelled as a list of byte values. -/
abbrev Hash := List Nat

/-- Value of one hexadecimal digit, case-insensitive; none for a non-hex character. -/
def hexDigitVal (c : Char) : Option Nat :=
  if ('0' ≤ c ∧ c ≤ '9') then some (c.toNat - 48)
  else if ('a' ≤ c ∧ c ≤ 'f') then some (c.toNat - 87)
  else if ('A' ≤ c ∧ c ≤ 'F') then some (c.toNat - 55)
  else none

/-- Decode a character list as hex byte pairs; fails on odd length or non-hex characters. -/
def hexBytes : List Char → Option (List Nat)
  | [] => some []
  | [_] => none
  | c1 :: c2 :: rest =>
    match hexDigitVal c1, hexDigitVal c2, hexBytes rest with
    | some a, some b, some bs => some ((16 * a + b) :: bs)
    | _, _, _ => none

/-- Modelled from the spec: epee string_tools hex_to_pod for crypto::hash (the hex
codec itself is outside the provided sources). Per the spec, a hash is a fixed-width
32-byte value encoded as case-insensitive hexadecimal of exactly 64 characters;
wrong length or non-hex characters fail the decode. -/
def hex_to_pod (s : String) : Option Hash :=
  if s.length = 64 then hexBytes s.data else none

/-- Modelled from the spec: the difficulty_type decimal-string constructor (boost
multiprecision, outside the provided sources). Per the spec, difficulty is a decimal
string for a non-negative arbitrary-precision integer; anything else fails to parse
(the source converts the resulting exception into a failed call). -/
def parseDifficulty (s : String) : Option Nat :=
  if s.data ≠ [] ∧ s.data.all Char.isDigit then
    some (s.data.foldl (fun a c => 10 * a + (c.toNat - 48)) 0)
  else none

/-- Lookup in an association list keyed by height (std::map find / count / at). -/
def mapFind {α : Type} : List (Nat × α) → Nat → Option α
  | [], _ => none
  | p :: rest, k => if p.1 = k then some p.2 else mapFind rest k

/-- Insert-or-replace in an association list (std::map operator[] assignment). -/
def mapInsert {α : Type} : List (Nat × α) → Nat → α → List (Nat × α)
  | [], k, v => [(k, v)]
  | p :: rest, k, v => if p.1 = k then (k, v) :: rest else p :: mapInsert rest k v

/-- Greatest key of the map, 0 when empty (std::map rbegin on the sorted map). -/
def maxKey {α : Type} (l : List (Nat × α)) : Nat :=
  l.foldl (fun a p => Nat.max a p.1) 0

/-- Greatest key less than or equal to x, if any (the predecessor of
std::map upper_bound(x) on the sorted map). -/
def floorKey : List (Nat × Hash) → Nat → Option Nat
  | [], _ => none
  | p :: rest, x =>
    match floorKey rest x with
    | none => if p.1 ≤ x then some p.1 else none
    | some f => if p.1 ≤ x then some (max p.1 f) else some f

/-- The checkpoint registry state: class checkpoints, fields m_points and
m_difficulty_points. -/
structure Checkpoints where
  m_points : List (Nat × Hash)
  m_difficulty_points : List (Nat × Nat)
deriving DecidableEq

/-- The default constructor checkpoints::checkpoints(): both maps empty. -/
def checkpoints_new : Checkpoints := { m_points := [], m_difficulty_points := [] }

/-- The difficulty stage of checkpoints::add_checkpoint (lines 91-107 of the source):
runs after the hash has been stored; on an empty difficulty string it is a no-op, on a
parse failure or a conflicting stored difficulty the call fails with the state as it
stands, otherwise the difficulty is stored. -/
def add_difficulty_checkpoint (st : Checkpoints) (height : Nat) (difficulty_str : String) :
    Bool × Checkpoints :=
  if difficulty_str = "" then (true, st)
  else
    match parseDifficulty difficulty_str with
    | none => (false, st)
    | some d =>
      match mapFind st.m_difficulty_points height with
      | some d0 =>
        if d0 = d then
          (true, { st with m_difficulty_points := mapInsert st.m_difficulty_points height d })
        else (false, st)
      | none =>
        (true, { st with m_difficulty_points := mapInsert st.m_difficulty_points height d })

/-- checkpoints::add_checkpoint: decode the hash hex (failure aborts with no state
change), reject a conflicting hash at an existing height (no state change), otherwise
store the hash and then run the difficulty stage. -/
def add_checkpoint (st : Checkpoints) (height : Nat) (hash_str difficulty_str : String) :
    Bool × Checkpoints :=
  match hex_to_pod hash_str with
  | none => (false, st)
  | some h =>
    match mapFind st.m_points height with
    | some h0 =>
      if h0 = h then
        add_difficulty_checkpoint
          { st with m_points := mapInsert st.m_points height h } height difficulty_str
      else (false, st)
    | none =>
      add_difficulty_checkpoint
        { st with m_points := mapInsert st.m_points height h } height difficulty_str

/-- checkpoints::is_in_checkpoint_zone. -/
def is_in_checkpoint_zone (st : Checkpoints) (height : Nat) : Bool :=
  decide (st.m_points ≠ [] ∧ height ≤ maxKey st.m_points)

/-- checkpoints::check_block (three-argument overload), returning
(accepted, is_a_checkpoint). -/
def check_block (st : Checkpoints) (height : Nat) (h : Hash) : Bool × Bool :=
  match mapFind st.m_points height with
  | none => (true, false)
  | some h0 => (decide (h0 = h), true)

/-- checkpoints::is_alternative_block_allowed: height 0 is rejected; otherwise the
candidate is allowed when no checkpointed height is at or below the chain height,
or when the greatest such checkpointed height is strictly below the candidate. -/
def is_alternative_block_allowed (st : Checkpoints) (blockchain_height block_height : Nat) :
    Bool :=
  if block_height = 0 then false
  else
    match floorKey st.m_points blockchain_height with
    | none => true
    | some f => decide (f < block_height)

/-- checkpoints::get_max_height. -/
def get_max_height (st : Checkpoints) : Nat := maxKey st.m_points

/-- checkpoints::check_for_conflicts: every entry of the other set whose height this
set also holds must carry the identical hash. -/
def check_for_conflicts (st other : Checkpoints) : Bool :=
  other.m_points.all fun p =>
    match mapFind st.m_points p.1 with
    | none => true
    | some h0 => decide (p.2 = h0)

/-- cryptonote::network_type, restricted to the kinds the source inspects. -/
inductive network_type
  | MAINNET
  | TESTNET
  | STAGENET
deriving DecidableEq

/-- The compiled-in default checkpoint list of init_default_checkpoints. In this
source every ADD_CHECKPOINT line of the production branch is commented out, so the
compiled-in list is empty. -/
def DEFAULT_MAINNET_CHECKPOINTS : List (Nat × String) := []

/-- Modelled from the spec: the ADD_CHECKPOINT macro (declared in checkpoints.h,
which is not among the provided sources) inserts via add_checkpoint with an empty
difficulty string and, per the spec, propagates an insertion failure as failure of
the enclosing call; this folds it over a list of (height, hash-string) pairs. -/
def add_checkpoint_list : Checkpoints → List (Nat × String) → Bool × Checkpoints
  | st, [] => (true, st)
  | st, p :: rest =>
    match add_checkpoint st p.1 p.2 "" with
    | (true, st1) => add_checkpoint_list st1 rest
    | (false, st1) => (false, st1)

/-- checkpoints::init_default_checkpoints: test and staging network kinds return
immediately; the production kind inserts the compiled-in list. -/
def init_default_checkpoints (nettype : network_type) (st : Checkpoints) :
    Bool × Checkpoints :=
  match nettype with
  | network_type.TESTNET => (true, st)
  | network_type.STAGENET => (true, st)
  | network_type.MAINNET => add_checkpoint_list st DEFAULT_MAINNET_CHECKPOINTS

/-- The record loop of checkpoints::load_checkpoints_from_json: a record at or below
the pre-load maximum height is skipped silently; any other record is inserted via
add_checkpoint, whose failure aborts the call as failure. -/
def processHashlines (prevMax : Nat) : Checkpoints → List (Nat × String) → Bool × Checkpoints
  | st, [] => (true, st)
  | st, p :: rest =>
    if p.1 ≤ prevMax then processHashlines prevMax st rest
    else
      match add_checkpoint st p.1 p.2 "" with
      | (true, st1) => processHashlines prevMax st1 rest
      | (false, st1) => (false, st1)

/-- checkpoints::load_checkpoints_from_json, parameterized by the external
collaborators: fileExists stands for the filesystem existence test and parsedFile
for the result of the epee json deserialization (none = structurally malformed). -/
def load_checkpoints_from_json (fileExists : Bool)
    (parsedFile : Option (List (Nat × String))) (st : Checkpoints) : Bool × Checkpoints :=
  if fileExists then
    match parsedFile with
    | none => (false, st)
    | some lines => processHashlines (get_max_height st) st lines
  else (true, st)

/-- Split a character list at the first colon: record.find of the source; none when
no colon occurs. -/
def splitAtFirstColon : List Char → Option (List Char × List Char)
  | [] => none
  | c :: rest =>
    if c = ':' then some ([], rest)
    else
      match splitAtFirstColon rest with
      | none => none
      | some (l, r) => some (c :: l, r)

/-- Whitespace skipped by formatted stream extraction. -/
def isSpaceChar (c : Char) : Bool :=
  (c == ' ') || (c == '\t') || (c == '\n') || (c == '\r')

/-- Modelled from the spec: stringstream extraction of an unsigned 64-bit height
(the stream machinery is outside the provided sources). Per the spec the left part
of a record is parsed as an unsigned decimal integer: leading whitespace is skipped,
at least one digit is required, the maximal digit run is read, and the value is
reduced to 64 bits. -/
def parseStreamUint64 (cs : List Char) : Option Nat :=
  let cs1 := cs.dropWhile isSpaceChar
  let ds := cs1.takeWhile Char.isDigit
  if ds.isEmpty then none
  else some ((ds.foldl (fun a c => 10 * a + (c.toNat - 48)) 0) % 2 ^ 64)

/-- Parse one DNS TXT record of the form height:hex-hash, as in the record loop of
load_checkpoints_from_dns: no colon, an unparsable height, or an undecodable hash
each make the record invalid. The returned hash string is the part after the colon,
which the source hands to ADD_CHECKPOINT. -/
def parseDnsRecord (r : String) : Option (Nat × String) :=
  match splitAtFirstColon r.data with
  | none => none
  | some (l, rest) =>
    match parseStreamUint64 l with
    | none => none
    | some h =>
      match hex_to_pod (String.mk rest) with
      | none => none
      | some _ => some (h, String.mk rest)

/-- The record loop of checkpoints::load_checkpoints_from_dns: an invalid record is
skipped silently; a valid record is inserted via add_checkpoint through the
ADD_CHECKPOINT macro, whose failure aborts the call as failure. -/
def processDnsRecords : Checkpoints → List String → Bool × Checkpoints
  | st, [] => (true, st)
  | st, r :: rest =>
    match parseDnsRecord r with
    | none => processDnsRecords st rest
    | some (h, s) =>
      match add_checkpoint st h s "" with
      | (true, st1) => processDnsRecords st1 rest
      | (false, st1) => (false, st1)

/-- checkpoints::load_checkpoints_from_dns, parameterized by the external TXT
fetch: none stands for a failed load_txt_records_from_dns call, on which the source
returns true immediately. -/
def load_checkpoints_from_dns (fetched : Option (List String)) (st : Checkpoints) :
    Bool × Checkpoints :=
  match fetched with
  | none => (true, st)
  | some records => processDnsRecords st records

/-- checkpoints::load_new_checkpoints: the file loader always runs; the DNS loader
runs only when dns is set, and both results are combined with a non-short-circuit
bitwise and. -/
def load_new_checkpoints (fileExists : Bool) (parsedFile : Option (List (Nat × String)))
    (fetched : Option (List String)) (dns : Bool) (st : Checkpoints) : Bool × Checkpoints :=
  match load_checkpoints_from_json fileExists parsedFile st with
  | (r1, st1) =>
    if dns then
      match load_checkpoints_from_dns fetched st1 with
      | (r2, st2) => (r1 && r2, st2)
    else (r1, st1)

/-- Every committed entry of the first state is still committed, with the same
value, in the second state: the growth order on registry contents. -/
def Preserves (st st2 : Checkpoints) : Prop :=
  (∀ k v, mapFind st.m_points k = some v → mapFind st2.m_points k = some v) ∧
  (∀ k v, mapFind st.m_difficulty_points k = some v →
    mapFind st2.m_difficulty_points k = some v)

/-! Concrete fixtures used by witnesses. -/

/-- A valid 64-character hash string. -/
def hashStrA : String := "0000000000000000000000000000000000000000000000000000000000000001"

/-- A second valid 64-character hash string, decoding to a different hash. -/
def hashStrB : String := "0000000000000000000000000000000000000000000000000000000000000002"

/-- The decoded bytes of hashStrA. -/
def hA : Hash := (hex_to_pod hashStrA).getD []

/-- The decoded bytes of hashStrB. -/
def hB : Hash := (hex_to_pod hashStrB).getD []

/-- A registry holding the single checkpoint (50, hA). -/
def ck50 : Checkpoints := (add_checkpoint checkpoints_new 50 hashStrA "").2

/-- A registry holding (50, hA) together with a difficulty entry at 50. -/
def ckB : Checkpoints := (add_checkpoint checkpoints_new 50 hashStrA "123").2

/-- A well-formed DNS record for height 200. -/
def goodRecord : String := String.append "200:" hashStrB

/-! Association-list lemmas. -/

/-- Lookup after insert-or-replace: the inserted key now maps to the new value and
every other key is unchanged. -/
lemma mapFind_mapInsert {α : Type} (l : List (Nat × α)) (k : Nat) (v : α) (k2 : Nat) :
    mapFind (mapInsert l k v) k2 = if k2 = k then some v else mapFind l k2 := by
  induction l with
  | nil =>
    by_cases h : k2 = k <;> simp [mapInsert, mapFind, h]
    intro h2
    exact absurd h2.symm h
  | cons p rest ih =>
    by_cases hp : p.1 = k
    · by_cases h2 : k2 = k
      · simp [mapInsert, mapFind, hp, h2]
      · have hk2 : ¬ k = k2 := fun h3 => h2 h3.symm
        simp [mapInsert, mapFind, hp, h2, hk2]
    · simp only [mapInsert, if_neg hp]
      by_cases h2 : p.1 = k2
      · have hk : ¬ k2 = k := fun h3 => hp (h3 ▸ h2)
        simp [mapFind, h2, hk]
      · simp [mapFind, h2, ih]

/-- Re-inserting the value already stored at a key leaves the list unchanged. -/
lemma mapInsert_self {α : Type} (l : List (Nat × α)) (k : Nat) (v : α)
    (h : mapFind l k = some v) : mapInsert l k v = l := by
  induction l with
  | nil => simp [mapFind] at h
  | cons p rest ih =>
    by_cases hp : p.1 = k
    · simp only [mapFind, if_pos hp] at h
      obtain rfl : p.2 = v := Option.some_injective _ h
      simp [mapInsert, if_pos hp, ← hp]
    · simp only [mapFind, if_neg hp] at h
      simp [mapInsert, if_neg hp, ih h]

/-- A successful lookup comes from a member of the list. -/
lemma mapFind_mem {α : Type} (l : List (Nat × α)) (k : Nat) (v : α)
    (h : mapFind l k = some v) : (k, v) ∈ l := by
  induction l with
  | nil => simp [mapFind] at h
  | cons p rest ih =>
    obtain ⟨p1, p2⟩ := p
    by_cases hp : p1 = k
    · simp only [mapFind, if_pos hp] at h
      obtain rfl : p2 = v := Option.some_injective _ h
      subst hp
      exact List.mem_cons_self _ _
    · simp only [mapFind, if_neg hp] at h
      exact List.mem_cons_of_mem _ (ih h)

/-! Growth of the registry content. -/

lemma preserves_refl (st : Checkpoints) : Preserves st st :=
  ⟨fun _ _ h => h, fun _ _ h => h⟩

lemma preserves_trans {st1 st2 st3 : Checkpoints}
    (h12 : Preserves st1 st2) (h23 : Preserves st2 st3) : Preserves st1 st3 :=
  ⟨fun k v h => h23.1 k v (h12.1 k v h),
   fun k v h => h23.2 k v (h12.2 k v h)⟩

/-- Insert-or-replace preserves committed entries as long as the inserted key is
absent or already carries the inserted value. -/
lemma mapFind_mapInsert_preserves {α : Type} (l : List (Nat × α)) (k : Nat) (v : α)
    (hg : mapFind l k = none ∨ mapFind l k = some v) :
    ∀ k2 v2, mapFind l k2 = some v2 → mapFind (mapInsert l k v) k2 = some v2 := by
  intro k2 v2 h2
  rw [mapFind_mapInsert]
  by_cases hk : k2 = k
  · subst hk
    rcases hg with hg | hg
    · rw [h2] at hg
      exact absurd hg (by simp)
    · rw [h2] at hg
      simp [hg]
  · simp [hk, h2]

/-- The difficulty stage never touches the hash map and only grows the difficulty
map. -/
lemma add_difficulty_checkpoint_preserves (st : Checkpoints) (height : Nat) (ds : String) :
    (add_difficulty_checkpoint st height ds).2.m_points = st.m_points ∧
    (∀ k v, mapFind st.m_difficulty_points k = some v →
      mapFind (add_difficulty_checkpoint st height ds).2.m_difficulty_points k = some v) := by
  by_cases he : ds = ""
  · simp [add_difficulty_checkpoint, he]
  · cases hp : parseDifficulty ds with
    | none => simp [add_difficulty_checkpoint, he, hp]
    | some d =>
      cases hf : mapFind st.m_difficulty_points height with
      | none =>
        constructor
        · simp [add_difficulty_checkpoint, he, hp, hf]
        · intro k v h2
          have h3 := mapFind_mapInsert_preserves st.m_difficulty_points height d
            (Or.inl hf) k v h2
          simpa [add_difficulty_checkpoint, he, hp, hf] using h3
      | some d0 =>
        by_cases hd : d0 = d
        · subst hd
          constructor
          · simp [add_difficulty_checkpoint, he, hp, hf]
          · intro k v h2
            have h3 := mapFind_mapInsert_preserves st.m_difficulty_points height d0
              (Or.inr hf) k v h2
            simpa [add_difficulty_checkpoint, he, hp, hf] using h3
        · simp [add_difficulty_checkpoint, he, hp, hf, hd]

/-- add_checkpoint only grows the registry content, also on failure. -/
lemma add_checkpoint_preserves (st : Checkpoints) (height : Nat) (hs ds : String) :
    Preserves st (add_checkpoint st height hs ds).2 := by
  cases hx : hex_to_pod hs with
  | none =>
    simp only [add_checkpoint, hx]
    exact preserves_refl st
  | some a =>
    cases hf : mapFind st.m_points height with
    | none =>
      have hd := add_difficulty_checkpoint_preserves
        { st with m_points := mapInsert st.m_points height a } height ds
      constructor
      · intro k v h
        simp only [add_checkpoint, hx, hf]
        rw [hd.1]
        exact mapFind_mapInsert_preserves _ _ _ (Or.inl hf) k v h
      · intro k v h
        simp only [add_checkpoint, hx, hf]
        exact hd.2 k v h
    | some h0 =>
      by_cases hh : h0 = a
      · subst hh
        have hd := add_difficulty_checkpoint_preserves
          { st with m_points := mapInsert st.m_points height h0 } height ds
        constructor
        · intro k v h
          have h3 := mapFind_mapInsert_preserves st.m_points height h0 (Or.inr hf) k v h
          simp [add_checkpoint, hx, hf]
          rw [hd.1]
          exact h3
        · intro k v h
          have h3 := hd.2 k v h
          simpa [add_checkpoint, hx, hf] using h3
      · simp only [add_checkpoint, hx, hf, if_neg hh]
        exact preserves_refl st

/-! Characterization of add_checkpoint outcomes. -/

/-- On failure the difficulty stage returns the state it was given. -/
lemma add_difficulty_checkpoint_fail (st : Checkpoints) (height : Nat) (ds : String)
    (h : (add_difficulty_checkpoint st height ds).1 = false) :
    (add_difficulty_checkpoint st height ds).2 = st := by
  by_cases he : ds = ""
  · simp [add_difficulty_checkpoint, he] at h
  · cases hp : parseDifficulty ds with
    | none => simp [add_difficulty_checkpoint, he, hp]
    | some d =>
      cases hf : mapFind st.m_difficulty_points height with
      | none => simp [add_difficulty_checkpoint, he, hp, hf] at h
      | some d0 =>
        by_cases hd : d0 = d
        · simp [add_difficulty_checkpoint, he, hp, hf, hd] at h
        · simp [add_difficulty_checkpoint, he, hp, hf, hd]

/-- On success the difficulty stage keeps the hash map, and either the difficulty
string was empty and the difficulty map is untouched, or the parsed difficulty is
now committed at the given height. -/
lemma add_difficulty_checkpoint_success (st : Checkpoints) (height : Nat) (ds : String)
    (h : (add_difficulty_checkpoint st height ds).1 = true) :
    (add_difficulty_checkpoint st height ds).2.m_points = st.m_points ∧
    ((ds = "" ∧ (add_difficulty_checkpoint st height ds).2 = st) ∨
     (∃ d, parseDifficulty ds = some d ∧
       mapFind (add_difficulty_checkpoint st height ds).2.m_difficulty_points height
         = some d)) := by
  refine ⟨(add_difficulty_checkpoint_preserves st height ds).1, ?_⟩
  by_cases he : ds = ""
  · exact Or.inl ⟨he, by simp [add_difficulty_checkpoint, he]⟩
  · refine Or.inr ?_
    cases hp : parseDifficulty ds with
    | none =>
      exfalso
      simp [add_difficulty_checkpoint, he, hp] at h
    | some d =>
      refine ⟨d, rfl, ?_⟩
      cases hf : mapFind st.m_difficulty_points height with
      | none =>
        simp [add_difficulty_checkpoint, he, hp, hf, mapFind_mapInsert]
      | some d0 =>
        by_cases hd : d0 = d
        · simp [add_difficulty_checkpoint, he, hp, hf, hd, mapFind_mapInsert]
        · exfalso
          simp [add_difficulty_checkpoint, he, hp, hf, hd] at h

/-- A failing difficulty stage implies the difficulty string was non-empty. -/
lemma add_difficulty_checkpoint_fail_nonempty (st : Checkpoints) (height : Nat)
    (ds : String) (h : (add_difficulty_checkpoint st height ds).1 = false) : ds ≠ "" := by
  intro he
  rw [he] at h
  simp [add_difficulty_checkpoint] at h

/-- Claim C1 (amended): add_checkpoint is atomic only through its hash stage. A
failure leaves the state exactly as before when the hash string does not decode or
conflicts with a stored hash; but when a valid hash was stored and the non-empty
difficulty string then fails to parse or conflicts, the call fails with the hash
entry left committed (the difficulty map alone is unchanged). -/
theorem add_checkpoint_failure_effect (st : Checkpoints) (height : Nat) (hs ds : String)
    (h : (add_checkpoint st height hs ds).1 = false) :
    (add_checkpoint st height hs ds).2 = st ∨
    (ds ≠ "" ∧ ∃ a, hex_to_pod hs = some a ∧
      (add_checkpoint st height hs ds).2 =
        { st with m_points := mapInsert st.m_points height a } ∧
      (add_checkpoint st height hs ds).2.m_difficulty_points = st.m_difficulty_points) := by
  cases hx : hex_to_pod hs with
  | none =>
    simp [add_checkpoint, hx]
  | some a =>
    cases hf : mapFind st.m_points height with
    | none =>
      have hb : (add_checkpoint st height hs ds).1 =
          (add_difficulty_checkpoint
            { st with m_points := mapInsert st.m_points height a } height ds).1 := by
        simp [add_checkpoint, hx, hf]
      rw [hb] at h
      have he := add_difficulty_checkpoint_fail _ _ _ h
      refine Or.inr ⟨add_difficulty_checkpoint_fail_nonempty _ _ _ h, a, rfl, ?_, ?_⟩
      · simp only [add_checkpoint, hx, hf]
        exact he
      · simp only [add_checkpoint, hx, hf]
        rw [he]
    | some h0 =>
      by_cases hh : h0 = a
      · subst hh
        have hb : (add_checkpoint st height hs ds).1 =
            (add_difficulty_checkpoint
              { st with m_points := mapInsert st.m_points height h0 } height ds).1 := by
          simp [add_checkpoint, hx, hf]
        rw [hb] at h
        have he := add_difficulty_checkpoint_fail _ _ _ h
        refine Or.inr ⟨add_difficulty_checkpoint_fail_nonempty _ _ _ h, h0, rfl, ?_, ?_⟩
        · simp only [add_checkpoint, hx, hf, if_true]
          exact he
        · simp only [add_checkpoint, hx, hf, if_true]
          rw [he]
      · simp [add_checkpoint, hx, hf, hh]

/-- On success add_checkpoint has decoded the hash, committed it at the height, set
the hash map to the corresponding insert, and committed the parsed difficulty when a
non-empty difficulty string was supplied. -/
lemma add_checkpoint_success (st : Checkpoints) (height : Nat) (hs ds : String)
    (h : (add_checkpoint st height hs ds).1 = true) :
    ∃ a, hex_to_pod hs = some a ∧
      (add_checkpoint st height hs ds).2.m_points = mapInsert st.m_points height a ∧
      mapFind (add_checkpoint st height hs ds).2.m_points height = some a ∧
      ((ds = "" ∧ (add_checkpoint st height hs ds).2.m_difficulty_points
          = st.m_difficulty_points) ∨
       (∃ d, parseDifficulty ds = some d ∧
         mapFind (add_checkpoint st height hs ds).2.m_difficulty_points height
           = some d)) := by
  cases hx : hex_to_pod hs with
  | none => simp [add_checkpoint, hx] at h
  | some a =>
    refine ⟨a, rfl, ?_⟩
    cases hf : mapFind st.m_points height with
    | none =>
      have hb : add_checkpoint st height hs ds =
          add_difficulty_checkpoint
            { st with m_points := mapInsert st.m_points height a } height ds := by
        simp [add_checkpoint, hx, hf]
      rw [hb] at h ⊢
      have hsucc := add_difficulty_checkpoint_success _ _ _ h
      refine ⟨hsucc.1, ?_, ?_⟩
      · rw [hsucc.1, mapFind_mapInsert]
        simp
      · rcases hsucc.2 with ⟨he, hst⟩ | ⟨d, hd, hdf⟩
        · exact Or.inl ⟨he, by rw [hst]⟩
        · exact Or.inr ⟨d, hd, hdf⟩
    | some h0 =>
      by_cases hh : h0 = a
      · subst hh
        have hb : add_checkpoint st height hs ds =
            add_difficulty_checkpoint
              { st with m_points := mapInsert st.m_points height h0 } height ds := by
          simp [add_checkpoint, hx, hf]
        rw [hb] at h ⊢
        have hsucc := add_difficulty_checkpoint_success _ _ _ h
        refine ⟨hsucc.1, ?_, ?_⟩
        · rw [hsucc.1, mapFind_mapInsert]
          simp
        · rcases hsucc.2 with ⟨he, hst⟩ | ⟨d, hd, hdf⟩
          · exact Or.inl ⟨he, by rw [hst]⟩
          · exact Or.inr ⟨d, hd, hdf⟩
      · simp [add_checkpoint, hx, hf, hh] at h

/-! Preservation through the ingestion folds. -/

lemma add_checkpoint_list_preserves (l : List (Nat × String)) :
    ∀ st : Checkpoints, Preserves st (add_checkpoint_list st l).2 := by
  induction l with
  | nil =>
    intro st
    exact preserves_refl st
  | cons p rest ih =>
    intro st
    have hp := add_checkpoint_preserves st p.1 p.2 ""
    cases hac : add_checkpoint st p.1 p.2 "" with
    | mk b st1 =>
      rw [hac] at hp
      cases b
      · simpa [add_checkpoint_list, hac] using hp
      · have h2 := ih st1
        have h3 : (add_checkpoint_list st (p :: rest)).2 = (add_checkpoint_list st1 rest).2 := by
          simp [add_checkpoint_list, hac]
        rw [h3]
        exact preserves_trans hp h2

lemma processHashlines_preserves (prevMax : Nat) (l : List (Nat × String)) :
    ∀ st : Checkpoints, Preserves st (processHashlines prevMax st l).2 := by
  induction l with
  | nil =>
    intro st
    exact preserves_refl st
  | cons p rest ih =>
    intro st
    by_cases hskip : p.1 ≤ prevMax
    · have h3 : (processHashlines prevMax st (p :: rest)).2
          = (processHashlines prevMax st rest).2 := by
        simp [processHashlines, hskip]
      rw [h3]
      exact ih st
    · have hp := add_checkpoint_preserves st p.1 p.2 ""
      cases hac : add_checkpoint st p.1 p.2 "" with
      | mk b st1 =>
        rw [hac] at hp
        cases b
        · simpa [processHashlines, hskip, hac] using hp
        · have h3 : (processHashlines prevMax st (p :: rest)).2
              = (processHashlines prevMax st1 rest).2 := by
            simp [processHashlines, hskip, hac]
          rw [h3]
          exact preserves_trans hp (ih st1)

lemma processDnsRecords_preserves (l : List String) :
    ∀ st : Checkpoints, Preserves st (processDnsRecords st l).2 := by
  induction l with
  | nil =>
    intro st
    exact preserves_refl st
  | cons r rest ih =>
    intro st
    cases hp : parseDnsRecord r with
    | none =>
      have h3 : (processDnsRecords st (r :: rest)).2 = (processDnsRecords st rest).2 := by
        simp [processDnsRecords, hp]
      rw [h3]
      exact ih st
    | some q =>
      have hq := add_checkpoint_preserves st q.1 q.2 ""
      cases hac : add_checkpoint st q.1 q.2 "" with
      | mk b st1 =>
        rw [hac] at hq
        cases b
        · simpa [processDnsRecords, hp, hac] using hq
        · have h3 : (processDnsRecords st (r :: rest)).2 = (processDnsRecords st1 rest).2 := by
            simp [processDnsRecords, hp, hac]
          rw [h3]
          exact preserves_trans hq (ih st1)

lemma init_default_checkpoints_preserves (nettype : network_type) (st : Checkpoints) :
    Preserves st (init_default_checkpoints nettype st).2 := by
  cases nettype with
  | MAINNET => exact add_checkpoint_list_preserves DEFAULT_MAINNET_CHECKPOINTS st
  | TESTNET => exact preserves_refl st
  | STAGENET => exact preserves_refl st

lemma load_checkpoints_from_json_preserves (fileExists : Bool)
    (parsedFile : Option (List (Nat × String))) (st : Checkpoints) :
    Preserves st (load_checkpoints_from_json fileExists parsedFile st).2 := by
  cases fileExists
  · simp only [load_checkpoints_from_json]
    exact preserves_refl st
  · cases parsedFile with
    | none =>
      simp only [load_checkpoints_from_json]
      exact preserves_refl st
    | some lines =>
      simp only [load_checkpoints_from_json]
      exact processHashlines_preserves (get_max_height st) lines st

lemma load_checkpoints_from_dns_preserves (fetched : Option (List String))
    (st : Checkpoints) : Preserves st (load_checkpoints_from_dns fetched st).2 := by
  cases fetched with
  | none => exact preserves_refl st
  | some records => exact processDnsRecords_preserves records st

lemma load_new_checkpoints_preserves (fileExists : Bool)
    (parsedFile : Option (List (Nat × String))) (fetched : Option (List String))
    (dns : Bool) (st : Checkpoints) :
    Preserves st (load_new_checkpoints fileExists parsedFile fetched dns st).2 := by
  have h1 := load_checkpoints_from_json_preserves fileExists parsedFile st
  cases hj : load_checkpoints_from_json fileExists parsedFile st with
  | mk r1 st1 =>
    rw [hj] at h1
    cases dns
    · simpa [load_new_checkpoints, hj] using h1
    · have h2 := load_checkpoints_from_dns_preserves fetched st1
      cases hd : load_checkpoints_from_dns fetched st1 with
      | mk r2 st2 =>
        rw [hd] at h2
        have h3 : (load_new_checkpoints fileExists parsedFile fetched true st).2 = st2 := by
          simp [load_new_checkpoints, hj, hd]
        rw [h3]
        exact preserves_trans h1 h2

/-! Floor-key lemmas for the alternative-block policy. -/

/-- When floorKey finds nothing, every key of the map is above the bound. -/
lemma floorKey_none (l : List (Nat × Hash)) (x : Nat) (h : floorKey l x = none) :
    ∀ k ∈ l.map Prod.fst, x < k := by
  induction l with
  | nil => simp
  | cons p rest ih =>
    intro k hk
    rcases List.mem_cons.mp hk with hk | hk
    · subst hk
      simp only [floorKey] at h
      cases hr : floorKey rest x with
      | none =>
        rw [hr] at h
        by_cases hp : p.1 ≤ x
        · simp [hp] at h
        · omega
      | some f =>
        rw [hr] at h
        by_cases hp : p.1 ≤ x <;> simp [hp] at h
    · simp only [floorKey] at h
      cases hr : floorKey rest x with
      | none => exact ih hr k hk
      | some f =>
        rw [hr] at h
        by_cases hp : p.1 ≤ x <;> simp [hp] at h

/-- The key floorKey finds is a key of the map, is at or below the bound, and is the
greatest key at or below the bound. -/
lemma floorKey_spec (l : List (Nat × Hash)) (x : Nat) (f : Nat)
    (h : floorKey l x = some f) :
    f ∈ l.map Prod.fst ∧ f ≤ x ∧ ∀ k ∈ l.map Prod.fst, k ≤ x → k ≤ f := by
  induction l generalizing f with
  | nil => simp [floorKey] at h
  | cons p rest ih =>
    cases hr : floorKey rest x with
    | none =>
      by_cases hp : p.1 ≤ x
      · simp only [floorKey, hr, if_pos hp] at h
        obtain rfl : p.1 = f := Option.some_injective _ h
        refine ⟨by simp, hp, ?_⟩
        intro k hk hkx
        rcases List.mem_cons.mp hk with hk | hk
        · omega
        · exact absurd hkx (by have := floorKey_none rest x hr k hk; omega)
      · simp only [floorKey, hr, if_neg hp] at h
        exact absurd h (by simp)
    | some fr =>
      have hir := ih fr hr
      by_cases hp : p.1 ≤ x
      · simp only [floorKey, hr, if_pos hp] at h
        obtain rfl : max p.1 fr = f := Option.some_injective _ h
        refine ⟨?_, max_le hp hir.2.1, ?_⟩
        · rcases Nat.le_total p.1 fr with hm | hm
          · rw [max_eq_right hm]
            exact List.mem_cons_of_mem _ hir.1
          · rw [max_eq_left hm]
            simp
        · intro k hk hkx
          rcases List.mem_cons.mp hk with hk | hk
          · subst hk
            exact le_max_left _ _
          · exact le_trans (hir.2.2 k hk hkx) (le_max_right _ _)
      · simp only [floorKey, hr, if_neg hp] at h
        obtain rfl : fr = f := Option.some_injective _ h
        refine ⟨List.mem_cons_of_mem _ hir.1, hir.2.1, ?_⟩
        intro k hk hkx
        rcases List.mem_cons.mp hk with hk | hk
        · omega
        · exact hir.2.2 k hk hkx

/-! Skipping of invalid or below-threshold records does not disturb the rest. -/

/-- Dropping the unparsable records from a DNS batch changes nothing: they are
skipped without affecting the ingestion of the remaining records. -/
lemma processDnsRecords_filter (records : List String) :
    ∀ st : Checkpoints, processDnsRecords st records =
      processDnsRecords st (records.filter (fun r => (parseDnsRecord r).isSome)) := by
  induction records with
  | nil =>
    intro st
    rfl
  | cons r rest ih =>
    intro st
    cases hp : parseDnsRecord r with
    | none =>
      have hfil : (r :: rest).filter (fun r => (parseDnsRecord r).isSome)
          = rest.filter (fun r => (parseDnsRecord r).isSome) := by
        simp [List.filter, hp]
      rw [hfil]
      have hstep : processDnsRecords st (r :: rest) = processDnsRecords st rest := by
        simp [processDnsRecords, hp]
      rw [hstep]
      exact ih st
    | some q =>
      have hfil : (r :: rest).filter (fun r => (parseDnsRecord r).isSome)
          = r :: rest.filter (fun r => (parseDnsRecord r).isSome) := by
        simp [List.filter, hp]
      rw [hfil]
      cases hac : add_checkpoint st q.1 q.2 "" with
      | mk b st1 =>
        cases b
        · simp [processDnsRecords, hp, hac]
        · have h1 : processDnsRecords st (r :: rest) = processDnsRecords st1 rest := by
            simp [processDnsRecords, hp, hac]
          have h2 : processDnsRecords st
              (r :: rest.filter (fun r => (parseDnsRecord r).isSome))
              = processDnsRecords st1 (rest.filter (fun r => (parseDnsRecord r).isSome)) := by
            simp [processDnsRecords, hp, hac]
          rw [h1, h2]
          exact ih st1

/-- Dropping the records at or below the pre-load maximum changes nothing: the
threshold is a fixed parameter of the whole pass, so such records are skipped and
the rest processed identically. -/
lemma processHashlines_filter (prevMax : Nat) (lines : List (Nat × String)) :
    ∀ st : Checkpoints, processHashlines prevMax st lines =
      processHashlines prevMax st (lines.filter (fun p => decide (prevMax < p.1))) := by
  induction lines with
  | nil =>
    intro st
    rfl
  | cons p rest ih =>
    intro st
    by_cases hskip : p.1 ≤ prevMax
    · have hlt : ¬ prevMax < p.1 := by omega
      have hfil : (p :: rest).filter (fun p => decide (prevMax < p.1))
          = rest.filter (fun p => decide (prevMax < p.1)) := by
        simp [List.filter, hlt]
      rw [hfil]
      have hstep : processHashlines prevMax st (p :: rest)
          = processHashlines prevMax st rest := by
        simp [processHashlines, hskip]
      rw [hstep]
      exact ih st
    · have hlt : prevMax < p.1 := by omega
      have hfil : (p :: rest).filter (fun p => decide (prevMax < p.1))
          = p :: rest.filter (fun p => decide (prevMax < p.1)) := by
        simp [List.filter, hlt]
      rw [hfil]
      cases hac : add_checkpoint st p.1 p.2 "" with
      | mk b st1 =>
        cases b
        · simp [processHashlines, hskip, hac]
        · have h1 : processHashlines prevMax st (p :: rest)
              = processHashlines prevMax st1 rest := by
            simp [processHashlines, hskip, hac]
          have h2 : processHashlines prevMax st
              (p :: rest.filter (fun p => decide (prevMax < p.1)))
              = processHashlines prevMax st1 (rest.filter (fun p => decide (prevMax < p.1))) := by
            simp [processHashlines, hskip, hac]
          rw [h1, h2]
          exact ih st1

/-! Claim theorems. -/

/-- Claim C2: for the production network kind init_default_checkpoints inserts the
compiled-in list (which in this source is empty, every entry being commented out)
via the add_checkpoint fold and returns success; for the test and staging kinds it
is a no-op that succeeds trivially and leaves the registry unchanged. -/
theorem init_default_checkpoints_spec (st : Checkpoints) :
    init_default_checkpoints network_type.TESTNET st = (true, st) ∧
    init_default_checkpoints network_type.STAGENET st = (true, st) ∧
    init_default_checkpoints network_type.MAINNET st
      = add_checkpoint_list st DEFAULT_MAINNET_CHECKPOINTS ∧
    init_default_checkpoints network_type.MAINNET st = (true, st) :=
  ⟨rfl, rfl, rfl, rfl⟩

/-- Claim C3: with no checkpoint stored at the height, check_block reports
accepted and not checkpointed; with a stored hash, it reports checkpointed, and
accepted exactly when the stored hash equals the queried one. -/
theorem check_block_spec (st : Checkpoints) (height : Nat) (x : Hash) :
    ((check_block st height x).2 = true ↔ mapFind st.m_points height ≠ none) ∧
    ((check_block st height x).1 = true ↔
      (mapFind st.m_points height = none ∨ mapFind st.m_points height = some x)) := by
  cases hf : mapFind st.m_points height with
  | none => simp [check_block, hf]
  | some h0 => simp [check_block, hf]

/-- Claim C4: is_alternative_block_allowed rejects candidate height 0; accepts
unconditionally when no checkpointed height is at or below the chain height; and
otherwise accepts exactly when the candidate height exceeds the greatest
checkpointed height at or below the chain height. -/
theorem is_alternative_block_allowed_spec (st : Checkpoints) (ch bh : Nat) :
    (bh = 0 → is_alternative_block_allowed st ch bh = false) ∧
    (bh ≠ 0 → (∀ k ∈ st.m_points.map Prod.fst, ch < k) →
      is_alternative_block_allowed st ch bh = true) ∧
    (bh ≠ 0 → ∀ f, f ∈ st.m_points.map Prod.fst → f ≤ ch →
      (∀ k ∈ st.m_points.map Prod.fst, k ≤ ch → k ≤ f) →
      (is_alternative_block_allowed st ch bh = true ↔ f < bh)) := by
  refine ⟨?_, ?_, ?_⟩
  · intro h0
    simp [is_alternative_block_allowed, h0]
  · intro hbh hall
    cases hq : floorKey st.m_points ch with
    | none => simp [is_alternative_block_allowed, hbh, hq]
    | some f0 =>
      have hs := floorKey_spec st.m_points ch f0 hq
      have := hall f0 hs.1
      have := hs.2.1
      omega
  · intro hbh f hmem hfle hmax
    cases hq : floorKey st.m_points ch with
    | none =>
      have := floorKey_none st.m_points ch hq f hmem
      omega
    | some f0 =>
      have hs := floorKey_spec st.m_points ch f0 hq
      have h1 : f0 ≤ f := hmax f0 hs.1 hs.2.1
      have h2 : f ≤ f0 := hs.2.2 f hmem hfle
      obtain rfl : f0 = f := Nat.le_antisymm h1 h2
      simp [is_alternative_block_allowed, hbh, hq]

/-- Witness for claim C4 at a registry with a single checkpoint at height 50. -/
theorem is_alternative_block_allowed_spec_witness :
    is_alternative_block_allowed ck50 60 0 = false ∧
    is_alternative_block_allowed ck50 10 5 = true ∧
    is_alternative_block_allowed ck50 60 51 = true ∧
    (is_alternative_block_allowed ck50 60 50 = true ↔ 50 < 50) :=
  ⟨(is_alternative_block_allowed_spec ck50 60 0).1 rfl,
   (is_alternative_block_allowed_spec ck50 10 5).2.1 (by decide) (by decide),
   ((is_alternative_block_allowed_spec ck50 60 51).2.2 (by decide) 50 (by decide)
     (by decide) (by decide)).mpr (by decide),
   (is_alternative_block_allowed_spec ck50 60 50).2.2 (by decide) 50 (by decide)
     (by decide) (by decide)⟩

/-- Claim C10: check_for_conflicts inspects only the hash mapping: agreement of the
hashes at every common height makes it succeed, and the difficulty maps of either
side never influence the result. -/
theorem check_for_conflicts_spec (A B : Checkpoints) :
    ((∀ p ∈ B.m_points, ∀ q ∈ A.m_points, p.1 = q.1 → p.2 = q.2) →
      check_for_conflicts A B = true) ∧
    (∀ dA dB, check_for_conflicts
        { A with m_difficulty_points := dA } { B with m_difficulty_points := dB }
      = check_for_conflicts A B) := by
  constructor
  · intro hagree
    unfold check_for_conflicts
    rw [List.all_eq_true]
    intro p hp
    cases hf : mapFind A.m_points p.1 with
    | none => simp [hf]
    | some h0 =>
      have hm := mapFind_mem A.m_points p.1 h0 hf
      have heq := hagree p hp (p.1, h0) hm rfl
      simp [hf, heq]
  · intro dA dB
    rfl

/-- Witness for claim C10: two registries agreeing on the hash at height 50 pass
the conflict check although their difficulty maps differ. -/
theorem check_for_conflicts_spec_witness :
    check_for_conflicts ck50 ckB = true ∧
    check_for_conflicts { ck50 with m_difficulty_points := [(50, 7)] }
        { ckB with m_difficulty_points := [] }
      = check_for_conflicts ck50 ckB :=
  ⟨(check_for_conflicts_spec ck50 ckB).1 (by decide),
   (check_for_conflicts_spec ck50 ckB).2 [(50, 7)] []⟩

/-- Claim C5: after a successful add of hashA at a height with empty difficulty,
adding a different valid hash at the same height fails and mutates nothing: the
whole state is returned unchanged and the height still reports hashA. -/
theorem add_checkpoint_conflict_second (st : Checkpoints) (h : Nat) (sA sB : String)
    (a b : Hash) (ha : hex_to_pod sA = some a) (hb : hex_to_pod sB = some b)
    (hab : a ≠ b) (hsucc : (add_checkpoint st h sA "").1 = true) :
    mapFind (add_checkpoint st h sA "").2.m_points h = some a ∧
    add_checkpoint (add_checkpoint st h sA "").2 h sB ""
      = (false, (add_checkpoint st h sA "").2) := by
  obtain ⟨a2, ha2, hmp, hfind, hdiff⟩ := add_checkpoint_success st h sA "" hsucc
  rw [ha] at ha2
  obtain rfl : a = a2 := Option.some_injective _ ha2
  refine ⟨hfind, ?_⟩
  generalize (add_checkpoint st h sA "").2 = st1 at hfind ⊢
  simp [add_checkpoint, hb, hfind, hab]

/-- Witness for claim C5 on the empty registry with two distinct valid hashes. -/
theorem add_checkpoint_conflict_second_witness :
    mapFind (add_checkpoint checkpoints_new 50 hashStrA "").2.m_points 50 = some hA ∧
    add_checkpoint (add_checkpoint checkpoints_new 50 hashStrA "").2 50 hashStrB ""
      = (false, (add_checkpoint checkpoints_new 50 hashStrA "").2) :=
  add_checkpoint_conflict_second checkpoints_new 50 hashStrA hashStrB hA hB
    (by decide) (by decide) (by decide) (by decide)

/-- Claim C7: add_checkpoint is idempotent for identical data: repeating a
successful call with the identical arguments succeeds again and leaves the state
of the first call unchanged. -/
theorem add_checkpoint_idempotent (st : Checkpoints) (h : Nat) (hs ds : String)
    (hsucc : (add_checkpoint st h hs ds).1 = true) :
    add_checkpoint (add_checkpoint st h hs ds).2 h hs ds
      = (true, (add_checkpoint st h hs ds).2) := by
  obtain ⟨a, ha, hmp, hfind, hdiff⟩ := add_checkpoint_success st h hs ds hsucc
  generalize (add_checkpoint st h hs ds).2 = st1 at hfind hdiff ⊢
  have hins : mapInsert st1.m_points h a = st1.m_points := mapInsert_self _ _ _ hfind
  have heta : { st1 with m_points := mapInsert st1.m_points h a } = st1 := by
    rw [hins]
  have hstep : add_checkpoint st1 h hs ds = add_difficulty_checkpoint st1 h ds := by
    simp [add_checkpoint, ha, hfind, heta]
  rw [hstep]
  rcases hdiff with ⟨hds, _⟩ | ⟨d, hd, hdfind⟩
  · rw [hds]
    simp [add_difficulty_checkpoint]
  · have hne : ds ≠ "" := by
      intro he
      rw [he] at hd
      simp [parseDifficulty] at hd
    have hins2 : mapInsert st1.m_difficulty_points h d = st1.m_difficulty_points :=
      mapInsert_self _ _ _ hdfind
    have heta2 : { st1 with m_difficulty_points := mapInsert st1.m_difficulty_points h d }
        = st1 := by
      rw [hins2]
    simp [add_difficulty_checkpoint, hne, hd, hdfind, heta2]

/-- Witness for claim C7 on the empty registry with a difficulty string. -/
theorem add_checkpoint_idempotent_witness :
    add_checkpoint (add_checkpoint checkpoints_new 50 hashStrA "123").2 50 hashStrA "123"
      = (true, (add_checkpoint checkpoints_new 50 hashStrA "123").2) :=
  add_checkpoint_idempotent checkpoints_new 50 hashStrA "123" (by decide)

/-- Claim C1 counterexample: on the empty registry, adding a valid hash at height 5
with the unparsable difficulty string x fails, yet a hash entry at height 5 is left
committed — the failing call did mutate the registry, refuting atomicity as claimed. -/
theorem add_checkpoint_not_atomic_cex :
    (add_checkpoint checkpoints_new 5 hashStrA "x").1 = false ∧
    (mapFind (add_checkpoint checkpoints_new 5 hashStrA "x").2.m_points 5).isSome
      = true := by
  decide

/-- Witness for claim C1 (amended) at the counterexample input: the failure leaves
exactly the hash committed and the difficulty map unchanged. -/
theorem add_checkpoint_failure_effect_witness :
    (add_checkpoint checkpoints_new 5 hashStrA "x").2 = checkpoints_new ∨
    ("x" ≠ "" ∧ ∃ a, hex_to_pod hashStrA = some a ∧
      (add_checkpoint checkpoints_new 5 hashStrA "x").2 =
        { checkpoints_new with m_points := mapInsert checkpoints_new.m_points 5 a } ∧
      (add_checkpoint checkpoints_new 5 hashStrA "x").2.m_difficulty_points
        = checkpoints_new.m_difficulty_points) :=
  add_checkpoint_failure_effect checkpoints_new 5 hashStrA "x" (by decide)

/-- Claim C6: the registry content only grows. Every exposed state-changing
operation — add_checkpoint including its failing calls, the default-list loader,
the file loader, the DNS loader, and the combined loader — keeps every previously
committed (height, hash) and (height, difficulty) entry intact. -/
theorem registry_only_grows :
    (∀ (st : Checkpoints) (height : Nat) (hs ds : String),
      Preserves st (add_checkpoint st height hs ds).2) ∧
    (∀ (nettype : network_type) (st : Checkpoints),
      Preserves st (init_default_checkpoints nettype st).2) ∧
    (∀ (fileExists : Bool) (parsedFile : Option (List (Nat × String))) (st : Checkpoints),
      Preserves st (load_checkpoints_from_json fileExists parsedFile st).2) ∧
    (∀ (fetched : Option (List String)) (st : Checkpoints),
      Preserves st (load_checkpoints_from_dns fetched st).2) ∧
    (∀ (fileExists : Bool) (parsedFile : Option (List (Nat × String)))
      (fetched : Option (List String)) (dns : Bool) (st : Checkpoints),
      Preserves st (load_new_checkpoints fileExists parsedFile fetched dns st).2) :=
  ⟨add_checkpoint_preserves,
   init_default_checkpoints_preserves,
   load_checkpoints_from_json_preserves,
   load_checkpoints_from_dns_preserves,
   load_new_checkpoints_preserves⟩

/-- Witness for claim C6: the entry at height 50 survives a failing add_checkpoint
call that targets the same height with a different hash. -/
theorem registry_only_grows_witness :
    mapFind (add_checkpoint ck50 50 hashStrB "").2.m_points 50 = some hA :=
  (registry_only_grows.1 ck50 50 hashStrB "").1 50 hA (by decide)

/-- Claim C8: DNS ingestion is best-effort: a failed TXT fetch still reports
success with the registry untouched; a batch is processed exactly as the batch
with its unparsable records removed, so a malformed record is skipped without
aborting the rest; and each record that parses is handed to add_checkpoint. -/
theorem load_checkpoints_from_dns_spec (st : Checkpoints) (records : List String) :
    load_checkpoints_from_dns none st = (true, st) ∧
    load_checkpoints_from_dns (some records) st =
      processDnsRecords st (records.filter (fun r => (parseDnsRecord r).isSome)) ∧
    (∀ r rest h s, parseDnsRecord r = some (h, s) →
      processDnsRecords st (r :: rest) =
        (if (add_checkpoint st h s "").1
          then processDnsRecords (add_checkpoint st h s "").2 rest
          else (false, (add_checkpoint st h s "").2))) := by
  refine ⟨rfl, processDnsRecords_filter records st, ?_⟩
  intro r rest h s hp
  cases hac : add_checkpoint st h s "" with
  | mk b st1 =>
    cases b
    · simp [processDnsRecords, hp, hac]
    · simp [processDnsRecords, hp, hac]

/-- Witness for claim C8: a batch of one malformed and one valid record reduces to
the valid record alone, and the valid record steps through add_checkpoint. -/
theorem load_checkpoints_from_dns_spec_witness :
    load_checkpoints_from_dns (some [String.mk [Char.ofNat 97], goodRecord])
        checkpoints_new =
      processDnsRecords checkpoints_new
        ([String.mk [Char.ofNat 97], goodRecord].filter
          (fun r => (parseDnsRecord r).isSome)) ∧
    processDnsRecords checkpoints_new [goodRecord] =
      (if (add_checkpoint checkpoints_new 200 hashStrB "").1
        then processDnsRecords (add_checkpoint checkpoints_new 200 hashStrB "").2 []
        else (false, (add_checkpoint checkpoints_new 200 hashStrB "").2)) :=
  ⟨(load_checkpoints_from_dns_spec checkpoints_new
      [String.mk [Char.ofNat 97], goodRecord]).2.1,
   (load_checkpoints_from_dns_spec checkpoints_new [goodRecord]).2.2 goodRecord []
     200 hashStrB (by decide)⟩

/-- Claim C9: the file loader records the maximum checkpoint height before any
record is processed and skips a record exactly when its height is at or below that
fixed threshold (records added during the same load never raise it); every other
record goes through add_checkpoint, whose failure fails the whole call; a missing
file succeeds trivially and a malformed file fails. -/
theorem load_checkpoints_from_json_spec (st : Checkpoints)
    (parsedFile : Option (List (Nat × String))) (lines : List (Nat × String)) :
    load_checkpoints_from_json false parsedFile st = (true, st) ∧
    load_checkpoints_from_json true none st = (false, st) ∧
    load_checkpoints_from_json true (some lines) st
      = processHashlines (get_max_height st) st lines ∧
    (∀ prevMax, processHashlines prevMax st lines
      = processHashlines prevMax st (lines.filter (fun p => decide (prevMax < p.1)))) ∧
    (∀ prevMax h s rest, prevMax < h →
      processHashlines prevMax st ((h, s) :: rest) =
        (if (add_checkpoint st h s "").1
          then processHashlines prevMax (add_checkpoint st h s "").2 rest
          else (false, (add_checkpoint st h s "").2))) := by
  refine ⟨rfl, rfl, rfl, fun prevMax => processHashlines_filter prevMax lines st, ?_⟩
  intro prevMax h s rest hlt
  have hskip : ¬ h ≤ prevMax := by omega
  cases hac : add_checkpoint st h s "" with
  | mk b st1 =>
    cases b
    · simp [processHashlines, hskip, hac]
    · simp [processHashlines, hskip, hac]

/-- Witness for claim C9 at the registry with maximum height 50: a record at
height 40 is filtered out while one at height 150 steps through add_checkpoint. -/
theorem load_checkpoints_from_json_spec_witness :
    processHashlines 50 ck50 [(40, hashStrB), (150, hashStrB)]
      = processHashlines 50 ck50
          ([(40, hashStrB), (150, hashStrB)].filter (fun p => decide (50 < p.1))) ∧
    processHashlines 50 ck50 [(150, hashStrB)] =
      (if (add_checkpoint ck50 150 hashStrB "").1
        then processHashlines 50 (add_checkpoint ck50 150 hashStrB "").2 []
        else (false, (add_checkpoint ck50 150 hashStrB "").2)) :=
  ⟨(load_checkpoints_from_json_spec ck50 none [(40, hashStrB), (150, hashStrB)]).2.2.2.1 50,
   (load_checkpoints_from_json_spec ck50 none [(150, hashStrB)]).2.2.2.2 50 150 hashStrB []
     (by decide)⟩

end Wazn
